import Mathlib

/-!
Shallow embedding of `src/elisa/model/node.py` (the symbolic model/parameter
composition engine) and proofs about it.

The embedding is split into several views of the `Node` class hierarchy, each
faithful to the fields of the source it uses:
* the process-wide uuid registry logic of `Node.__init__`;
* `MTree`: model nodes with the attrs used by `ModelOperationNode.__init__`
  and `generate_func` (`mtype`, `is_ncon`);
* `ParameterNodeA` / `PTree`: parameter nodes with the attrs used by
  `ParameterNode` validation and `ParameterOperationNode.default`;
* `LNode`: the label attrs (`name`, `fmt`, `id`) used by `LabelSpace`.

Machine floats of the source are modelled as `Int` (the claims at stake are
structural, not about rounding), and numpy arrays as `List Int`.
-/

set_option maxRecDepth 4096

/-! ### Node.__init__ uuid bookkeeping (node.py lines 15, 63-76)

`_UUID: list[str] = []` is the process-wide registry; `Node.__init__` draws
`node_id = str(uuid4().hex)` and raises `RuntimeError('UUID4 collision found!')`
when `node_id in _UUID`.  The drawn id is passed here explicitly (it is an
external random source), and the registry is threaded as explicit state.
The source contains no statement appending `node_id` to `_UUID`, so a
successful construction returns the registry unchanged. -/

def nodeInitUUID (uuidList : List String) (node_id : String) :
    Except String (List String) :=
  if uuidList.contains node_id then
    Except.error "UUID4 collision found!"
  else
    Except.ok uuidList

/-! ### Model composition algebra (node.py lines 423-491, 583-650) -/

/-- `mtype` attribute: `'add'`, `'mul'` or `'con'` (checked at `ModelNode`
construction, node.py line 466). -/
inductive MType where
  | add
  | mul
  | con
deriving DecidableEq, Repr

/-- A model node, carrying the attrs read by `ModelOperationNode.__init__` and
`generate_func`: a leaf (`ModelNode`) stores its `mtype` and `is_ncon` attrs
and its name (keying its `func_generator`); an operation node
(`ModelOperationNode`) stores the op (`'+'` or `'*'`, the `name` attr) and
references its two predecessors. -/
inductive MTree where
  | leaf (name : String) (mtype : MType) (is_ncon : Bool)
  | node (op : String) (lh rh : MTree)
deriving DecidableEq, Repr

/-- The `mtype` attr of a node: stored for a leaf; for an operation node the
value derived at construction (node.py lines 632-641). -/
def mtypeOf : MTree → MType
  | .leaf _ m _ => m
  | .node _ lh rh =>
    if mtypeOf lh == .add || mtypeOf rh == .add then .add
    else if mtypeOf lh == .con || mtypeOf rh == .con then .con
    else .mul

/-- The `is_ncon` attr of a node: stored for a leaf; for an operation node the
value derived at construction (node.py lines 630-639: initialised `False`, set
only in the `con` branch). -/
def isNconOf : MTree → Bool
  | .leaf _ _ b => b
  | .node _ lh rh =>
    if mtypeOf lh == .add || mtypeOf rh == .add then false
    else if mtypeOf lh == .con || mtypeOf rh == .con then
      isNconOf lh || isNconOf rh
    else false

/-- `ModelOperationNode.__init__` (node.py lines 599-645): `_check_type`
validates the operator (both operands being model-typed is enforced by the
Lean type of `lh`/`rh`), then the operand kinds are checked against the
composition algebra; on success the operation node is produced (its `mtype` /
`is_ncon` attrs are the derived `mtypeOf` / `isNconOf`). -/
def mkModelOperationNode (lh rh : MTree) (op : String) : Except String MTree :=
  if op ≠ "+" ∧ op ≠ "*" then
    Except.error "operator is not supported"
  else if op == "+" then
    if mtypeOf lh ≠ MType.add then Except.error "lh is not additive"
    else if mtypeOf rh ≠ MType.add then Except.error "rh is not additive"
    else Except.ok (.node op lh rh)
  else
    if mtypeOf lh == MType.add && mtypeOf rh == MType.add then
      Except.error "unsupported types for *: add and add"
    else if mtypeOf lh == MType.add && mtypeOf rh == MType.con then
      Except.error "unsupported order for *: add and con"
    else if isNconOf lh && isNconOf rh then
      Except.error "norm convolution can only be used once for one component"
    else Except.ok (.node op lh rh)

/-- Whether an `Except` result is a success. -/
def isOkE {α : Type} : Except String α → Bool
  | .ok _ => true
  | .error _ => false

/-! ### ParameterNode / ParameterOperationNode (node.py lines 234-420)

Defaults and fixed values are modelled as `Int`; a numpyro `Distribution` is
abstracted to its `_validate_sample` support predicate, which is all
`_validate_default` reads from it.  The `deterministic` attr only feeds
`site`, which no claim touches, so it is not carried. -/

/-- The `distribution` attr of a `ParameterNode`: a numpyro `Distribution`
(abstracted to its `_validate_sample` predicate) or a fixed numeric value. -/
inductive PDist where
  | distribution (validate_sample : Int → Bool)
  | const (value : Int)

/-- `ParameterNode._validate_default` (node.py lines 341-353). -/
def validateDefault (dist : PDist) (default : Int) : Except String Unit :=
  match dist with
  | .distribution v =>
    if ¬ v default then Except.error "default value outside the dist domain"
    else Except.ok ()
  | .const c =>
    if c ≠ default then Except.error "default value and fixed dist are different"
    else Except.ok ()

/-- The attrs of a constructed `ParameterNode` relevant to its default-value
invariant. -/
structure ParameterNodeA where
  name : String
  fmt : String
  default : Int
  distribution : PDist

/-- `ParameterNode.__init__` (node.py lines 254-272): validates the default
against the distribution, then stores both in the attrs. -/
def mkParameterNode (name fmt : String) (default : Int) (dist : PDist) :
    Except String ParameterNodeA :=
  match validateDefault dist default with
  | .error e => .error e
  | .ok _ => .ok ⟨name, fmt, default, dist⟩

/-- The `default` property setter (node.py lines 290-295): re-validates the
new value against the stored distribution, and only then writes it (the
Python `float(value)` conversion is the identity in the `Int` model).  On a
validation error the write never happens, so no updated node is produced. -/
def setDefault (p : ParameterNodeA) (value : Int) :
    Except String ParameterNodeA :=
  match validateDefault p.distribution value with
  | .error e => .error e
  | .ok _ => .ok { p with default := value }

/-- The invariant claimed for a parameter leaf: the stored default is in the
distribution support, or equals the fixed constant. -/
def defaultValid (p : ParameterNodeA) : Bool :=
  match p.distribution with
  | .distribution v => v p.default
  | .const c => p.default == c

/-- A parameter-typed node tree: a leaf (`ParameterNode`) or an operation node
(`ParameterOperationNode`, storing the op `'+'` or `'*'` as its `name` attr
and referencing its two predecessors). -/
inductive PTree where
  | leaf (p : ParameterNodeA)
  | node (op : String) (lh rh : PTree)

/-- `ParameterOperationNode.__init__` (node.py lines 372-373), which only runs
`OperationNode._check_type`: the operator must be `'+'` or `'*'` (both
operands being parameter-typed is enforced by the Lean type). -/
def mkParameterOperationNode (lh rh : PTree) (op : String) :
    Except String PTree :=
  if op ≠ "+" ∧ op ≠ "*" then Except.error "operator is not supported"
  else Except.ok (.node op lh rh)

/-- The `default` property (node.py lines 286-288 for a leaf, 386-395 for an
operation node): an operation node recomputes it from its predecessors'
current defaults on every access — it stores no default of its own. -/
def PTree.default : PTree → Int
  | .leaf p => p.default
  | .node op lh rh =>
    if op == "+" then lh.default + rh.default
    else lh.default * rh.default

/-! ### generate_func — evaluator composition (node.py lines 532-580, 687-786)

Python is untyped, so the four positional arguments of every compiled
evaluator (`p`=params, `e`=egrid, `f`=flux, `ff`=flux_func in the source's
notation) are modelled by one value domain `V`: numpy arrays are `V.arr`,
the params mapping `{model_name: {param: value}}` is `V.dict`, Python `None`
is `V.vnone`, and a function value is `V.clos` of a defunctionalised closure
`EvF` (either a compiled sub-evaluator, or one of the two local `m2_ff`
closures built inside `wrapper_ncon_mul` / `wrapper_ncon_con`, which capture
the compiled `rh` and the received `ff`).  A Python runtime error (`KeyError`,
indexing an array by a string, `None` arithmetic, ...) is `none`.

A leaf's external evaluator (`func = func_generator(model_name)`, node.py
lines 534-547; the `FunctionType` rebinding only changes introspection
metadata, not behaviour) is supplied by an environment keyed by the leaf's
name; all three source signatures `func(egrid, **pars)`, `func(egrid, flux,
**pars)` and `func(flux_func, flux, **pars)` are instances of one shape
taking two positional `V`s and the keyword params.  Calls that pass fewer
than four positional arguments (legal in the source because the wrappers
either default to `None` or swallow extras with `*_`) pass `V.vnone` for the
missing ones. -/

mutual

/-- A defunctionalised evaluator closure (the `Callable`s that flow around in
`generate_func`): given a fixed environment and name mapping, `compiled t` is
the evaluator `generate_func` returns for the node `t`; the `m2ff` forms are
the two inner closures of `wrapper_ncon_mul` and `wrapper_ncon_con`. -/
inductive EvF where
  | compiled (t : MTree)
  | m2ffNconMul (rh : MTree) (ff : V)
  | m2ffNconCon (rh : MTree) (ff : V)

/-- Untyped Python value passed between compiled evaluators. -/
inductive V where
  | arr (xs : List Int)
  | dict (d : List (String × List (String × Int)))
  | clos (c : EvF)
  | vnone

end

/-- A leaf model's external evaluator: two positional arguments and the
keyword params, returning a per-bin array or failing. -/
def LeafFun : Type :=
  V → V → List (String × Int) → Option (List Int)

/-- Association-list lookup, modelling Python dict indexing. -/
def lookupA {α : Type} : List (String × α) → String → Option α
  | [], _ => none
  | (k, v) :: rest, key => if k == key then some v else lookupA rest key

/-- `p[model_name]`: index the params value (must be a dict, else the Python
call raises). -/
def getPars (p : V) (model_name : String) : Option (List (String × Int)) :=
  match p with
  | .dict d => lookupA d model_name
  | _ => none

/-- numpy `+` on two per-bin arrays (elementwise on equal shapes; anything
else raises in the wrappers' context). -/
def vadd : V → V → Option V
  | .arr a, .arr b =>
    if a.length == b.length then some (.arr (List.zipWith (· + ·) a b))
    else none
  | _, _ => none

/-- numpy `*` on two per-bin arrays. -/
def vmul : V → V → Option V
  | .arr a, .arr b =>
    if a.length == b.length then some (.arr (List.zipWith (· * ·) a b))
    else none
  | _, _ => none

/-- `generate_func` composed with application: `applyTree env mapping t` is
the callable returned by `t.generate_func(mapping)` applied to four
positional arguments.  Leaf dispatch is node.py lines 549-580; composite
dispatch is node.py lines 687-786, selecting the wrapper shape from `op` and
the operands' `mtype`/`is_ncon` attrs exactly as the source's nested
conditionals do.  In `wrapper_ncon_mul` (node.py line 737) the source's
formal parameter list is `(e, p, f, ff)` — its first positional argument is
bound to `e` and its second to `p` — and its body calls `m2(e, p)` and
`m1(p, e, ...)`; this binding is reproduced verbatim (here `a1`..`a4` denote
the four positional arguments in the order the caller passed them). -/
def applyTree (env : String → LeafFun) (mapping : List (String × String)) :
    MTree → V → V → V → V → Option V
  | .leaf name _mtype is_ncon_ => fun a1 a2 a3 a4 =>
    match lookupA mapping name with
    | none => none  -- mapping[self.name] raises KeyError
    | some model_name =>
      match _mtype with
      | .add => do  -- wrapper_add(p, e, *_): func(e, **p[model_name])
        let pars ← getPars a1 model_name
        let r ← env name a2 V.vnone pars
        some (V.arr r)
      | .mul => do  -- wrapper_mul(p, e, *_): func(e, **p[model_name])
        let pars ← getPars a1 model_name
        let r ← env name a2 V.vnone pars
        some (V.arr r)
      | .con =>
        if is_ncon_ then do
          -- wrapper_ncon(p, _=None, f=None, ff=None): func(ff, f, **p[...])
          let pars ← getPars a1 model_name
          let r ← env name a4 a3 pars
          some (V.arr r)
        else do
          -- wrapper_con(p, e, f, *_): func(e, f, **p[model_name])
          let pars ← getPars a1 model_name
          let r ← env name a2 a3 pars
          some (V.arr r)
  | .node op lh rh => fun a1 a2 a3 a4 =>
    let m1 := applyTree env mapping lh
    let m2 := applyTree env mapping rh
    if op == "+" then do
      -- wrapper_add_add(p, e, *_): m1(p, e) + m2(p, e)
      let x ← m1 a1 a2 V.vnone V.vnone
      let y ← m2 a1 a2 V.vnone V.vnone
      vadd x y
    else
      if mtypeOf lh != MType.con then
        if mtypeOf rh != MType.con then do
          -- wrapper_op(p, e, *_): m1(p, e) * m2(p, e)
          let x ← m1 a1 a2 V.vnone V.vnone
          let y ← m2 a1 a2 V.vnone V.vnone
          vmul x y
        else if isNconOf rh then do
          -- wrapper_mul_ncon(p, e, f, ff): m1(p, e) * m2(p, e, f, ff)
          let x ← m1 a1 a2 V.vnone V.vnone
          let y ← m2 a1 a2 a3 a4
          vmul x y
        else do
          -- wrapper_mul_con(p, e, f, *_): m1(p, e) * m2(p, e, f)
          let x ← m1 a1 a2 V.vnone V.vnone
          let y ← m2 a1 a2 a3 V.vnone
          vmul x y
      else
        if isNconOf lh then
          if mtypeOf rh == MType.add then do
            -- wrapper_ncon_add(p, e, *_): m1(p, e, m2(p, e), m2)
            let y ← m2 a1 a2 V.vnone V.vnone
            m1 a1 a2 y (V.clos (EvF.compiled rh))
          else if mtypeOf rh == MType.mul then do
            -- wrapper_ncon_mul(e, p, f, ff):
            --   m1(p, e, m2(e, p) * f, m2_ff)   [e := a1, p := a2]
            let y ← m2 a1 a2 V.vnone V.vnone
            let fl ← vmul y a3
            m1 a2 a1 fl (V.clos (EvF.m2ffNconMul rh a4))
          else do
            -- wrapper_ncon_con(p, e, f, ff): m1(p, e, m2(p, e, f), m2_ff)
            let y ← m2 a1 a2 a3 V.vnone
            m1 a1 a2 y (V.clos (EvF.m2ffNconCon rh a4))
        else
          if mtypeOf rh == MType.add then do
            -- wrapper_con_add(p, e, *_): m1(p, e, m2(p, e))
            let y ← m2 a1 a2 V.vnone V.vnone
            m1 a1 a2 y V.vnone
          else if mtypeOf rh == MType.mul then do
            -- wrapper_con_mul(p, e, f, *_): m1(p, e, m2(p, e) * f)
            let y ← m2 a1 a2 V.vnone V.vnone
            let fl ← vmul y a3
            m1 a1 a2 fl V.vnone
          else if isNconOf rh then do
            -- wrapper_con_ncon(p, e, f, ff): m1(p, e, m2(p, e, f, ff))
            let y ← m2 a1 a2 a3 a4
            m1 a1 a2 y V.vnone
          else do
            -- wrapper_con_con(p, e, f, *_): m1(p, e, m2(p, e, f))
            let y ← m2 a1 a2 a3 V.vnone
            m1 a1 a2 y V.vnone

/-! ### LabelSpace (node.py lines 789-941)

`LabelSpace` reads, of a node, only the attrs `is_operation`, `name`, `fmt`,
`id` and `predecessor`, and the recursive `name`/`fmt` rendering of
`Node._label_with_id` / `OperationNode._label_with_id`; `LNode` carries
exactly those.  The snapshot / lazy-rebuild machinery (`_check_if_label_changed`)
recomputes, on any divergence, exactly what the constructor computes, so a
finished tree's rendering is `_label` over the constructor's label map. -/

/-- Which label is being processed (`'name'` or `'fmt'`), validated everywhere
by `_check_label_type`. -/
inductive LabelType where
  | name
  | fmt
deriving DecidableEq

/-- The label-relevant attrs of a non-operation (leaf) node. -/
structure LeafInfo where
  name : String
  fmt : String
  id : String
deriving DecidableEq

/-- `i.attrs[label_type]` for a leaf. -/
def LeafInfo.label (i : LeafInfo) : LabelType → String
  | .name => i.name
  | .fmt => i.fmt

/-- A node as `LabelSpace` sees it: a leaf with raw `name`/`fmt` and `id`
attrs, or an operation node with its `name` attr (the op, `'+'` or `'*'`) and
`fmt` attr (`'\times'` or the op, possibly overwritten to `'*'` by
`ModelOperationNode.__init__` lines 647-650) and two predecessors. -/
inductive LNode where
  | leaf (i : LeafInfo)
  | op (opName opFmt : String) (lh rh : LNode)

/-- `attrs['name']` of a node (used by the parenthesisation rule). -/
def LNode.attrName : LNode → String
  | .leaf i => i.name
  | .op opName _ _ _ => opName

/-- The `name`/`fmt` property: `Node._label_with_id` (node.py line 135)
suffixes a leaf's raw label with `_id`; `OperationNode._label_with_id`
(node.py lines 164-191) composes the operands' labels around the op label,
parenthesising an operand whose `name` attr is `'+'` when the op is `'*'`. -/
def LNode.render : LNode → LabelType → String
  | .leaf i, lt => i.label lt ++ "_" ++ i.id
  | .op opName opFmt lh rh, lt =>
    let lhLabel := lh.render lt
    let rhLabel := rh.render lt
    let lhLabel := if opName == "*" && lh.attrName == "+" then
        "(" ++ lhLabel ++ ")" else lhLabel
    let rhLabel := if opName == "*" && rh.attrName == "+" then
        "(" ++ rhLabel ++ ")" else rhLabel
    let opLabel := match lt with | .name => opName | .fmt => opFmt
    lhLabel ++ " " ++ opLabel ++ " " ++ rhLabel

/-- The leaves of the tree in the order `LabelSpace`'s worklist loop
(node.py lines 845-858 and 878-906: pop the front, push `predecessor` at the
front) visits them: left-to-right depth-first. -/
def LNode.dfsLeaves : LNode → List LeafInfo
  | .leaf i => [i]
  | .op _ _ lh rh => lh.dfsLeaves ++ rh.dfsLeaves

/-- Replace the value of the first entry with the given key (Python dict
assignment to an existing key; the in-place `list.append` on the bucket of
`label_space` amounts to this). -/
def updateA {α : Type} : List (String × α) → String → α → List (String × α)
  | [], _, _ => []
  | (k, v) :: rest, key, w =>
    if k == key then (k, w) :: rest else (k, v) :: updateA rest key w

/-- The suffix text appended on a label collision (node.py lines 899-902):
`"{num}"` for names, `"_{num}"` for fmt strings. -/
def suffixStr (lt : LabelType) (num : Nat) : String :=
  match lt with
  | .name => toString num
  | .fmt => "_" ++ toString num

/-- The body of `_get_suffix_mapping`'s loop (node.py lines 876-908), folded
over the depth-first leaf sequence: `ls` is `label_space` (label → ids seen
with that label, in order) and `acc` is `id_to_str` (insertion-ordered).
A first occurrence of a label maps `"label_id"` to the bare label; a new id
colliding on a label is appended to the bucket and maps to the label plus
the suffix for the new bucket size; an id already in the bucket (the same
leaf reused) changes nothing. -/
def suffixFold (lt : LabelType) (ls : List (String × List String))
    (acc : List (String × String)) :
    List LeafInfo → List (String × String)
  | [] => acc
  | i :: rest =>
    let label := i.label lt
    match lookupA ls label with
    | none =>
      suffixFold lt (ls ++ [(label, [i.id])])
        (acc ++ [(label ++ "_" ++ i.id, label)]) rest
    | some ids =>
      if ids.contains i.id then
        suffixFold lt ls acc rest
      else
        let ids2 := ids ++ [i.id]
        suffixFold lt (updateA ls label ids2)
          (acc ++ [(label ++ "_" ++ i.id, label ++ suffixStr lt ids2.length)])
          rest

/-- `LabelSpace._get_suffix_mapping` (node.py lines 860-908): the
`"label_id" → final label` mapping, in insertion order. -/
def getSuffixMapping (lt : LabelType) (t : LNode) : List (String × String) :=
  suffixFold lt [] [] t.dfsLeaves

/-- Python `str.replace`: replace non-overlapping occurrences left to right
(patterns here are never empty).  Structured with explicit fuel so that it
reduces by kernel computation; `fuel ≥ s.length` steps always suffice. -/
def replaceCharsFuel : Nat → List Char → List Char → List Char → List Char
  | 0, s, _, _ => s
  | _ + 1, [], _, _ => []
  | fuel + 1, c :: rest, pat, rep =>
    if pat ≠ [] && List.isPrefixOf pat (c :: rest) then
      rep ++ replaceCharsFuel fuel (List.drop pat.length (c :: rest)) pat rep
    else
      c :: replaceCharsFuel fuel rest pat rep

/-- Python `s.replace(pat, rep)` on strings. -/
def strReplace (s pat rep : String) : String :=
  String.mk (replaceCharsFuel s.data.length s.data pat.data rep.data)

/-- `LabelSpace._label` (node.py lines 918-927): render the node's raw
`name`/`fmt` (which carries id suffixes) and apply every entry of the suffix
mapping as a string replacement, in insertion order. -/
def labelSpaceLabel (t : LNode) (lt : LabelType) : String :=
  (getSuffixMapping lt t).foldl (fun s kv => strReplace s kv.1 kv.2)
    (t.render lt)

/-- `LabelSpace.name`. -/
def labelSpaceName (t : LNode) : String :=
  labelSpaceLabel t .name

/-- `LabelSpace.fmt`. -/
def labelSpaceFmt (t : LNode) : String :=
  labelSpaceLabel t .fmt

/-! #### Specification-side description of the suffix mapping

`specSuffixEntries` renders the spec's words for §4.4 / C9: walk the leaves
in depth-first order; a leaf whose `(label, id)` pair was already seen is
skipped entirely; otherwise, if `n` is one plus the number of distinct leaves
with the same raw label seen before it, the leaf's keyed label maps to the
raw label when `n = 1` and to the raw label with suffix `n` otherwise. -/

/-- Whether some already-processed leaf has this leaf's `(label, id)` pair. -/
def pairSeen (lt : LabelType) (processed : List LeafInfo) (i : LeafInfo) :
    Bool :=
  processed.any fun j => j.label lt == i.label lt && j.id == i.id

/-- How many processed leaves carry the given raw label. -/
def labelCount (lt : LabelType) (processed : List LeafInfo) (l : String) :
    Nat :=
  (processed.filter fun j => j.label lt == l).length

/-- The spec's description of the suffix mapping (see §4.4 of the spec):
first distinct occurrence of a raw label keeps it, the n-th distinct leaf
with that label gets suffix n, and a repeated `(label, id)` pair is counted
once. -/
def specSuffixEntries (lt : LabelType) (processed : List LeafInfo) :
    List LeafInfo → List (String × String)
  | [] => []
  | i :: rest =>
    if pairSeen lt processed i then
      specSuffixEntries lt processed rest
    else
      let n := labelCount lt processed (i.label lt) + 1
      (i.label lt ++ "_" ++ i.id,
        if n == 1 then i.label lt else i.label lt ++ suffixStr lt n)
        :: specSuffixEntries lt (processed ++ [i]) rest

/-- Drop every leaf whose `(label, id)` pair already occurred earlier in the
list (`seen` accumulates the pairs). -/
def dedupLeavesGo (lt : LabelType) (seen : List (String × String)) :
    List LeafInfo → List LeafInfo
  | [] => []
  | i :: rest =>
    if seen.contains (i.label lt, i.id) then
      dedupLeavesGo lt seen rest
    else
      i :: dedupLeavesGo lt ((i.label lt, i.id) :: seen) rest

/-- The distinct leaves of a depth-first leaf sequence, first occurrences
kept in order. -/
def dedupLeaves (lt : LabelType) (xs : List LeafInfo) : List LeafInfo :=
  dedupLeavesGo lt [] xs

/-- The ids of the processed leaves carrying a given raw label, in order
(the contents of a `label_space` bucket). -/
def idsOf (lt : LabelType) (l : String) (processed : List LeafInfo) :
    List String :=
  (processed.filter fun j => j.label lt == l).map LeafInfo.id

/-- `none` for the empty list, `some` otherwise (how a `label_space` bucket
relates to dict lookup). -/
def optListOf : List String → Option (List String)
  | [] => none
  | x :: xs => some (x :: xs)

/-! ### Concrete instances used by the theorems -/

/-- A norm-convolution leaf node (`ModelNode` with `mtype='con'`,
`is_ncon=True`). -/
def leafNconA : MTree :=
  .leaf "A" .con true

/-- A multiplicative leaf node. -/
def leafMulM : MTree :=
  .leaf "M" .mul false

/-- Additive leaf nodes. -/
def leafAddB : MTree :=
  .leaf "B" .add false

/-- Second additive leaf node. -/
def leafAddC : MTree :=
  .leaf "C" .add false

/-- The composite `A * M` (norm-convolution times multiplicative), which the
algebra allows and `generate_func` compiles through `wrapper_ncon_mul`. -/
def treeNconMul : MTree :=
  .node "*" leafNconA leafMulM

/-- The composite `B + C`. -/
def treeBC : MTree :=
  .node "+" leafAddB leafAddC

/-- The three-leaf composite `A * (B + C)` with `A` norm-convolution,
compiled through `wrapper_ncon_add`. -/
def treeABC : MTree :=
  .node "*" leafNconA treeBC

/-- Identity name mapping for the leaves above (`generate_func`'s `mapping`
argument, final resolved names). -/
def idMapping : List (String × String) :=
  [("A", "A"), ("M", "M"), ("B", "B"), ("C", "C")]

/-- Toy deterministic leaf evaluators: `A`'s external function
`func(flux_func, flux, **pars)` prepends `0` to the flux it is handed (and
fails on a non-array flux, as numpy code would); `M`, `B` and `C` return
fixed constant arrays, ignoring their arguments. -/
def toyEnv : String → LeafFun :=
  fun name _a b _pars =>
    if name == "A" then
      match b with
      | .arr xs => some (0 :: xs)
      | _ => none
    else if name == "M" then some [3, 3]
    else if name == "B" then some [1, 2]
    else if name == "C" then some [10, 20]
    else none

/-- Well-formed arguments for the uniform calling convention: a params dict
holding a (here empty) parameter mapping for every leaf, and an energy grid. -/
def toyParams : V :=
  .dict [("A", []), ("M", []), ("B", []), ("C", [])]

/-- A toy energy grid of three edges. -/
def toyEgrid : V :=
  .arr [1, 2, 3]

/-- A toy incoming flux of two bins (matching the two-bin leaf outputs). -/
def toyFlux : V :=
  .arr [5, 7]

/-- Leaves for the label-space examples: two distinct `PowerLaw` leaves and a
`PhAbs` leaf (ids are distinct placeholders for the uuid hex). -/
def plLeaf1 : LeafInfo :=
  ⟨"PowerLaw", "PL", "aa01"⟩

/-- Second `PowerLaw` leaf with the same raw label and a different id. -/
def plLeaf2 : LeafInfo :=
  ⟨"PowerLaw", "PL", "aa02"⟩

/-- A `PhAbs` leaf. -/
def phLeaf : LeafInfo :=
  ⟨"PhAbs", "PhAbs", "aa03"⟩

/-- `PowerLaw() + PowerLaw()`. -/
def exSumPP : LNode :=
  .op "+" "+" (.leaf plLeaf1) (.leaf plLeaf2)

/-- `PhAbs() * PowerLaw()`. -/
def exProdPhP : LNode :=
  .op "*" "\\times" (.leaf phLeaf) (.leaf plLeaf1)

/-- A tree reusing one `PowerLaw` leaf object twice (a DAG with structural
sharing), plus a distinct leaf with the same raw label:
`(P + P) + Q` where `P` is shared. -/
def exShared : LNode :=
  .op "+" "+" (.op "+" "+" (.leaf plLeaf1) (.leaf plLeaf1)) (.leaf plLeaf2)

/-! ### Theorems -/

/-- C1: `Node.__init__` is claimed to record every issued id in the
process-wide `_UUID` registry so that a second creation drawing the same id
fails.  The code checks the drawn id against `_UUID` but never appends to it:
a successful construction returns the registry unchanged (still empty here),
so a second construction drawing the very same id succeeds instead of
raising the claimed fatal collision error. -/
theorem c1_second_draw_of_same_id_succeeds :
    ∃ reg, nodeInitUUID [] "deadbeef" = Except.ok reg ∧
      reg = [] ∧
      isOkE (nodeInitUUID reg "deadbeef") = true :=
  ⟨[], rfl, rfl, rfl⟩

/-- C2: the compiled evaluator of a norm-convolution node multiplied by a
multiplicative node is claimed callable as
`evaluate(params, egrid, flux, fluxEvaluator)`.  The source's
`wrapper_ncon_mul(e, p, f, ff)` binds its first positional argument as the
energy grid and its second as the params, so the uniform-convention call
fails (the norm-convolution leaf indexes the energy-grid array by its model
name); the swapped call fails as well (then the multiplicative sub-evaluator
indexes the array).  The same leaves evaluated directly under the uniform
convention succeed, showing the arguments themselves are well-formed. -/
theorem c2_ncon_mul_uniform_call_fails :
    applyTree toyEnv idMapping treeNconMul toyParams toyEgrid toyFlux V.vnone
      = none ∧
    applyTree toyEnv idMapping treeNconMul toyEgrid toyParams toyFlux V.vnone
      = none ∧
    applyTree toyEnv idMapping leafMulM toyParams toyEgrid V.vnone V.vnone
      = some (V.arr [3, 3]) ∧
    applyTree toyEnv idMapping leafNconA toyParams toyEgrid toyFlux V.vnone
      = some (V.arr [0, 5, 7]) :=
  ⟨rfl, rfl, rfl, rfl⟩

/-- C3 counterexample: the claim says a convolution left operand with an
additive right operand matches no allowed row and fails at construction; in
the code `con * add` succeeds (it is the ordinary way a convolution is
applied) and the result kind is additive. -/
theorem c3_con_times_add_succeeds :
    mkModelOperationNode (MTree.leaf "cnv" MType.con false)
        (MTree.leaf "pl" MType.add false) "*"
      = Except.ok (MTree.node "*" (MTree.leaf "cnv" MType.con false)
          (MTree.leaf "pl" MType.add false)) ∧
    mtypeOf (MTree.node "*" (MTree.leaf "cnv" MType.con false)
        (MTree.leaf "pl" MType.add false)) = MType.add :=
  ⟨rfl, rfl⟩


/-- C3 (amended): constructing a `*` composition of two model nodes succeeds
exactly unless both operands are additive, or the left is additive and the
right a convolution, or both operands are norm-convolution; when it succeeds
the result node carries the derived row: additive whenever either operand is
additive (in particular for a non-additive left with an additive right),
convolution — with norm subkind iff either operand is norm — whenever
neither operand is additive and either is a convolution, and multiplicative
when both operands are multiplicative. -/
theorem c3_star_composition_algebra (lh rh : MTree) :
    (isOkE (mkModelOperationNode lh rh "*") = true ↔
      ¬(mtypeOf lh = MType.add ∧ mtypeOf rh = MType.add) ∧
      ¬(mtypeOf lh = MType.add ∧ mtypeOf rh = MType.con) ∧
      ¬(isNconOf lh = true ∧ isNconOf rh = true)) ∧
    (∀ t, mkModelOperationNode lh rh "*" = Except.ok t →
      t = MTree.node "*" lh rh ∧
      ((mtypeOf lh = MType.add ∨ mtypeOf rh = MType.add) →
        mtypeOf t = MType.add ∧ isNconOf t = false) ∧
      (mtypeOf lh ≠ MType.add → mtypeOf rh ≠ MType.add →
        (mtypeOf lh = MType.con ∨ mtypeOf rh = MType.con) →
        mtypeOf t = MType.con ∧
        (isNconOf t = true ↔ (isNconOf lh = true ∨ isNconOf rh = true))) ∧
      (mtypeOf lh = MType.mul → mtypeOf rh = MType.mul →
        mtypeOf t = MType.mul ∧ isNconOf t = false)) := by
  constructor
  · cases h1 : mtypeOf lh <;> cases h2 : mtypeOf rh <;>
      cases h3 : isNconOf lh <;> cases h4 : isNconOf rh <;>
        simp [mkModelOperationNode, h1, h2, h3, h4, isOkE]
  · intro t ht
    have htt : t = MTree.node "*" lh rh := by
      cases h1 : mtypeOf lh <;> cases h2 : mtypeOf rh <;>
        cases h3 : isNconOf lh <;> cases h4 : isNconOf rh <;>
          simp [mkModelOperationNode, h1, h2, h3, h4] at ht <;>
            exact ht.symm
    subst htt
    refine ⟨rfl, ?_, ?_, ?_⟩
    · intro h
      rcases h with h | h <;>
        simp [mtypeOf, isNconOf, h]
    · intro hl hr hc
      rcases hc with h | h <;>
        cases h1 : mtypeOf lh <;> cases h2 : mtypeOf rh <;>
          simp_all [mtypeOf, isNconOf]
    · intro hl hr
      simp [mtypeOf, isNconOf, hl, hr]

/-- Witness for C3's theorem: instantiated at the norm-convolution leaf times
the multiplicative leaf, whose construction succeeds with result kind
convolution and norm subkind. -/
theorem c3_star_composition_algebra_witness :
    mtypeOf treeNconMul = MType.con ∧ isNconOf treeNconMul = true := by
  have h := (c3_star_composition_algebra leafNconA leafMulM).2 treeNconMul rfl
  have h2 := h.2.2.1 (by decide) (by decide) (Or.inl (by decide))
  exact ⟨h2.1, h2.2.mpr (Or.inl rfl)⟩

/-- C5: for every two additive model nodes, composing with `*` raises the
construction error and composing with `+` succeeds (producing the `+`
operation node). -/
theorem c5_additive_star_fails_plus_succeeds (lh rh : MTree)
    (h1 : mtypeOf lh = MType.add) (h2 : mtypeOf rh = MType.add) :
    isOkE (mkModelOperationNode lh rh "*") = false ∧
    mkModelOperationNode lh rh "+" = Except.ok (MTree.node "+" lh rh) := by
  constructor
  · simp [mkModelOperationNode, h1, h2, isOkE]
  · simp [mkModelOperationNode, h1, h2]

/-- Witness for C5's theorem at the two additive leaves. -/
theorem c5_additive_star_fails_plus_succeeds_witness :
    isOkE (mkModelOperationNode leafAddB leafAddC "*") = false ∧
    mkModelOperationNode leafAddB leafAddC "+"
      = Except.ok (MTree.node "+" leafAddB leafAddC) :=
  c5_additive_star_fails_plus_succeeds leafAddB leafAddC rfl rfl

/-- C6: for every two norm-convolution model nodes, composing with `*` raises
a construction error, in either operand order. -/
theorem c6_double_ncon_star_fails (lh rh : MTree)
    (h1 : mtypeOf lh = MType.con) (h2 : isNconOf lh = true)
    (h3 : mtypeOf rh = MType.con) (h4 : isNconOf rh = true) :
    isOkE (mkModelOperationNode lh rh "*") = false ∧
    isOkE (mkModelOperationNode rh lh "*") = false := by
  constructor <;> simp [mkModelOperationNode, h1, h2, h3, h4, isOkE]

/-- Witness for C6's theorem at two concrete norm-convolution leaves. -/
theorem c6_double_ncon_star_fails_witness :
    isOkE (mkModelOperationNode leafNconA (MTree.leaf "A2" MType.con true) "*")
      = false ∧
    isOkE (mkModelOperationNode (MTree.leaf "A2" MType.con true) leafNconA "*")
      = false :=
  c6_double_ncon_star_fails leafNconA (MTree.leaf "A2" MType.con true)
    rfl rfl rfl rfl

/-- C7: a parameter leaf's stored default satisfies the support/constant
invariant immediately after a successful construction and after every
successful setter assignment (which preserves the distribution); a violating
construction or assignment yields the error outcome — in the exception
semantics of the source the write to `attrs['default']` happens only after
validation, so an erroring assignment produces no updated node and the
stored default is untouched. -/
theorem c7_default_within_support :
    (∀ name fmt d dist p, mkParameterNode name fmt d dist = Except.ok p →
      defaultValid p = true) ∧
    (∀ p v q, setDefault p v = Except.ok q →
      defaultValid q = true ∧ q.distribution = p.distribution) ∧
    (∀ name fmt d dist, defaultValid ⟨name, fmt, d, dist⟩ = false →
      isOkE (mkParameterNode name fmt d dist) = false) ∧
    (∀ p v, defaultValid ⟨p.name, p.fmt, v, p.distribution⟩ = false →
      isOkE (setDefault p v) = false) := by
  refine ⟨?_, ?_, ?_, ?_⟩
  · intro name fmt d dist p h
    cases dist with
    | distribution v =>
      by_cases hv : v d = true <;>
        simp [mkParameterNode, validateDefault, hv] at h <;>
        simp [← h, defaultValid, hv]
    | const c =>
      by_cases hc : c = d <;>
        simp [mkParameterNode, validateDefault, hc] at h <;>
        simp [← h, defaultValid, hc]
  · intro p v q h
    cases hd : p.distribution with
    | distribution w =>
      by_cases hv : w v = true <;>
        simp [setDefault, validateDefault, hd, hv] at h <;>
        simp [← h, defaultValid, hd, hv]
    | const c =>
      by_cases hc : c = v <;>
        simp [setDefault, validateDefault, hd, hc] at h <;>
        simp [← h, defaultValid, hd, hc]
  · intro name fmt d dist h
    cases dist with
    | distribution v =>
      by_cases hv : v d = true <;>
        simp [defaultValid, hv] at h <;>
        simp [mkParameterNode, validateDefault, hv, isOkE]
    | const c =>
      by_cases hc : c = d <;>
        simp [defaultValid, hc] at h <;>
        simp [mkParameterNode, validateDefault, hc, isOkE]
  · intro p v h
    cases hd : p.distribution with
    | distribution w =>
      by_cases hv : w v = true <;>
        simp [defaultValid, hd, hv] at h <;>
        simp [setDefault, validateDefault, hd, hv, isOkE]
    | const c =>
      by_cases hc : c = v <;>
        simp [defaultValid, hd, hc] at h <;>
        simp [setDefault, validateDefault, hd, hc, isOkE]

/-- Witness for C7's theorem: a constant-distribution parameter constructed
with the matching default, then successfully reassigned, keeps a valid
default; the mismatching construction errors. -/
theorem c7_default_within_support_witness :
    defaultValid ⟨"K", "K", 1, PDist.const 1⟩ = true ∧
    isOkE (mkParameterNode "K" "K" 2 (PDist.const 1)) = false :=
  ⟨c7_default_within_support.1 "K" "K" 1 (PDist.const 1)
      ⟨"K", "K", 1, PDist.const 1⟩ rfl,
    c7_default_within_support.2.2.1 "K" "K" 2 (PDist.const 1) (by decide)⟩

/-- C8: for all parameter nodes, the `+` composite's default is the sum and
the `*` composite's default is the product of the operands' defaults, and
both compositions always construct successfully; since the operation node's
`default` is a property recomputed from the predecessors on each access (the
embedding stores no default on an operation node), the equations hold for the
operands' current defaults whenever accessed. -/
theorem c8_operation_default (lh rh : PTree) :
    (PTree.node "+" lh rh).default = lh.default + rh.default ∧
    (PTree.node "*" lh rh).default = lh.default * rh.default ∧
    mkParameterOperationNode lh rh "+"
      = Except.ok (PTree.node "+" lh rh) ∧
    mkParameterOperationNode lh rh "*"
      = Except.ok (PTree.node "*" lh rh) :=
  ⟨rfl, rfl, rfl, rfl⟩

/-- C4: for the three-leaf tree `A * (B + C)` with `A` a norm-convolution
leaf and `B`, `C` additive leaves with constant toy evaluators, the compiled
composite evaluator at any params value and energy grid equals `A`'s own
compiled evaluator applied with flux the elementwise sum of `B`'s and `C`'s
outputs and with flux evaluator the compiled evaluator of `B + C`. -/
theorem c4_ncon_over_sum_composition (p e : V) :
    applyTree toyEnv idMapping treeABC p e V.vnone V.vnone =
      (do
        let fb ← applyTree toyEnv idMapping leafAddB p e V.vnone V.vnone
        let fc ← applyTree toyEnv idMapping leafAddC p e V.vnone V.vnone
        let fl ← vadd fb fc
        applyTree toyEnv idMapping leafNconA p e fl
          (V.clos (EvF.compiled treeBC))) := by
  show Option.bind
      (Option.bind (applyTree toyEnv idMapping leafAddB p e V.vnone V.vnone)
        (fun fb =>
          Option.bind (applyTree toyEnv idMapping leafAddC p e V.vnone V.vnone)
            (fun fc => vadd fb fc)))
      (fun fl => applyTree toyEnv idMapping leafNconA p e fl
        (V.clos (EvF.compiled treeBC))) = _
  cases applyTree toyEnv idMapping leafAddB p e V.vnone V.vnone with
  | none => rfl
  | some fb =>
    cases applyTree toyEnv idMapping leafAddC p e V.vnone V.vnone with
    | none => rfl
    | some fc => simp [Option.bind_assoc]

/-! ### Helper lemmas for the label-space proofs -/

theorem lookupA_append {α : Type} (ls : List (String × α)) (k : String)
    (v : α) (l : String) :
    lookupA (ls ++ [(k, v)]) l =
      match lookupA ls l with
      | some w => some w
      | none => if k == l then some v else none := by
  induction ls with
  | nil => simp [lookupA]
  | cons hd tl ih =>
    obtain ⟨k0, v0⟩ := hd
    cases hk : (k0 == l) <;> simp [lookupA, hk, ih]

theorem lookupA_update_self {α : Type} (ls : List (String × α)) (l : String)
    (v : α) (h : lookupA ls l ≠ none) :
    lookupA (updateA ls l v) l = some v := by
  induction ls with
  | nil => simp [lookupA] at h
  | cons hd tl ih =>
    obtain ⟨k0, v0⟩ := hd
    cases hk : (k0 == l) with
    | true => simp [lookupA, updateA, hk]
    | false =>
      simp [lookupA, hk] at h
      simp [lookupA, updateA, hk, ih h]

theorem lookupA_update_ne {α : Type} (ls : List (String × α)) (k l : String)
    (v : α) (h : (k == l) = false) :
    lookupA (updateA ls k v) l = lookupA ls l := by
  induction ls with
  | nil => simp [lookupA, updateA]
  | cons hd tl ih =>
    obtain ⟨k0, v0⟩ := hd
    by_cases hk : (k0 == k) = true
    · have hk0 : (k0 == l) = false := by
        have : k0 = k := by simpa using hk
        subst this
        exact h
      simp [updateA, hk, lookupA, hk0]
    · simp [updateA, hk, lookupA, ih]

theorem idsOf_append (lt : LabelType) (l : String)
    (processed : List LeafInfo) (i : LeafInfo) :
    idsOf lt l (processed ++ [i]) =
      idsOf lt l processed ++ (if i.label lt == l then [i.id] else []) := by
  by_cases h : (i.label lt == l) = true <;>
    simp [idsOf, List.filter_append, h]

theorem labelCount_eq_length (lt : LabelType) (processed : List LeafInfo)
    (l : String) :
    labelCount lt processed l = (idsOf lt l processed).length := by
  simp [labelCount, idsOf]

theorem pairSeen_true_iff (lt : LabelType) (processed : List LeafInfo)
    (i : LeafInfo) :
    pairSeen lt processed i = true ↔
      i.id ∈ idsOf lt (i.label lt) processed := by
  simp [pairSeen, idsOf, List.any_eq_true, List.mem_filter]
  constructor
  · rintro ⟨j, hj, hl, hid⟩
    exact ⟨j, ⟨hj, hl⟩, hid⟩
  · rintro ⟨j, ⟨hj, hl⟩, hid⟩
    exact ⟨j, hj, hl, hid⟩

/-- Step equation of the `_get_suffix_mapping` loop: first occurrence of a
label. -/
theorem suffixFold_cons_none (lt : LabelType) (ls : List (String × List String))
    (acc : List (String × String)) (i : LeafInfo) (rest : List LeafInfo)
    (h : lookupA ls (i.label lt) = none) :
    suffixFold lt ls acc (i :: rest) =
      suffixFold lt (ls ++ [(i.label lt, [i.id])])
        (acc ++ [(i.label lt ++ "_" ++ i.id, i.label lt)]) rest := by
  simp [suffixFold, h]

/-- Step equation of the `_get_suffix_mapping` loop: the same leaf (id
already in the bucket) is skipped. -/
theorem suffixFold_cons_dup (lt : LabelType) (ls : List (String × List String))
    (acc : List (String × String)) (i : LeafInfo) (rest : List LeafInfo)
    (ids : List String) (h : lookupA ls (i.label lt) = some ids)
    (hm : i.id ∈ ids) :
    suffixFold lt ls acc (i :: rest) = suffixFold lt ls acc rest := by
  simp [suffixFold, h, hm]

/-- Step equation of the `_get_suffix_mapping` loop: a new id colliding on an
existing label. -/
theorem suffixFold_cons_new (lt : LabelType) (ls : List (String × List String))
    (acc : List (String × String)) (i : LeafInfo) (rest : List LeafInfo)
    (ids : List String) (h : lookupA ls (i.label lt) = some ids)
    (hm : i.id ∉ ids) :
    suffixFold lt ls acc (i :: rest) =
      suffixFold lt (updateA ls (i.label lt) (ids ++ [i.id]))
        (acc ++ [(i.label lt ++ "_" ++ i.id,
          i.label lt ++ suffixStr lt (ids ++ [i.id]).length)]) rest := by
  simp [suffixFold, h, hm]

/-- The loop of `_get_suffix_mapping`, started from a `label_space` whose
buckets hold exactly the label-grouped ids of an already-processed prefix,
emits the spec-side per-distinct-leaf numbering of the remaining leaves. -/
theorem suffixFold_eq_spec (lt : LabelType) :
    ∀ (rest : List LeafInfo) (ls : List (String × List String))
      (acc : List (String × String)) (processed : List LeafInfo),
      (∀ l, lookupA ls l = optListOf (idsOf lt l processed)) →
      suffixFold lt ls acc rest = acc ++ specSuffixEntries lt processed rest := by
  intro rest
  induction rest with
  | nil =>
    intro ls acc processed _
    simp [suffixFold, specSuffixEntries]
  | cons i rest ih =>
    intro ls acc processed hinv
    have hl := hinv (i.label lt)
    cases hids : idsOf lt (i.label lt) processed with
    | nil =>
      have hlook : lookupA ls (i.label lt) = none := by
        rw [hl, hids]; rfl
      have hseen : pairSeen lt processed i = false := by
        rw [← Bool.not_eq_true, pairSeen_true_iff, hids]
        simp
      have hcount : labelCount lt processed (i.label lt) = 0 := by
        rw [labelCount_eq_length, hids]; rfl
      have hinv2 : ∀ l,
          lookupA (ls ++ [(i.label lt, [i.id])]) l =
            optListOf (idsOf lt l (processed ++ [i])) := by
        intro l
        rw [lookupA_append, idsOf_append]
        by_cases he : (i.label lt == l) = true
        · have hll : i.label lt = l := by simpa using he
          subst hll
          rw [hids, hinv (i.label lt), hids]
          simp [optListOf, he]
        · rw [hinv l]
          cases idsOf lt l processed <;> simp [optListOf, he]
      rw [suffixFold_cons_none lt ls acc i rest hlook, ih _ _ _ hinv2]
      simp [specSuffixEntries, hseen, hcount]
    | cons x xs =>
      have hlook : lookupA ls (i.label lt) = some (x :: xs) := by
        rw [hl, hids]; rfl
      by_cases hmem : i.id ∈ x :: xs
      · have hseen : pairSeen lt processed i = true := by
          rw [pairSeen_true_iff, hids]
          exact hmem
        rw [suffixFold_cons_dup lt ls acc i rest (x :: xs) hlook hmem,
          ih _ _ _ hinv]
        simp [specSuffixEntries, hseen]
      · have hseen : pairSeen lt processed i = false := by
          rw [← Bool.not_eq_true, pairSeen_true_iff, hids]
          exact hmem
        have hcount : labelCount lt processed (i.label lt) = xs.length + 1 := by
          rw [labelCount_eq_length, hids]
          rfl
        have hinv2 : ∀ l,
            lookupA (updateA ls (i.label lt) (x :: xs ++ [i.id])) l =
              optListOf (idsOf lt l (processed ++ [i])) := by
          intro l
          rw [idsOf_append]
          by_cases he : (i.label lt == l) = true
          · have hll : i.label lt = l := by simpa using he
            subst hll
            rw [lookupA_update_self ls _ _ (by rw [hlook]; simp), hids]
            simp [optListOf, he]
          · rw [lookupA_update_ne ls _ _ _ (by simpa using he), hinv l]
            cases idsOf lt l processed <;> simp [optListOf, he]
        rw [suffixFold_cons_new lt ls acc i rest (x :: xs) hlook hmem,
          ih _ _ _ hinv2]
        have hn : (x :: xs ++ [i.id]).length = xs.length + 1 + 1 := by
          simp
        simp [specSuffixEntries, hseen, hcount, hn]

/-- `pairSeen` over an extended processed prefix. -/
theorem pairSeen_append (lt : LabelType) (processed : List LeafInfo)
    (i j : LeafInfo) :
    pairSeen lt (processed ++ [i]) j =
      (pairSeen lt processed j
        || (i.label lt == j.label lt && i.id == j.id)) := by
  simp [pairSeen, List.any_append]

/-- Dropping later occurrences of an already-seen `(label, id)` pair does not
change the spec-side suffix entries, provided `seen` matches the processed
prefix. -/
theorem specSuffixEntries_dedup (lt : LabelType) :
    ∀ (xs processed : List LeafInfo) (seen : List (String × String)),
      (∀ j : LeafInfo, seen.contains (j.label lt, j.id) = true ↔
        pairSeen lt processed j = true) →
      specSuffixEntries lt processed (dedupLeavesGo lt seen xs) =
        specSuffixEntries lt processed xs := by
  intro xs
  induction xs with
  | nil =>
    intro processed seen _
    rfl
  | cons i xs ih =>
    intro processed seen hinv
    by_cases hp : pairSeen lt processed i = true
    · have hc : seen.contains (i.label lt, i.id) = true := (hinv i).mpr hp
      have hcm : (i.label lt, i.id) ∈ seen := by simpa using hc
      rw [show dedupLeavesGo lt seen (i :: xs) = dedupLeavesGo lt seen xs by
        simp [dedupLeavesGo, hcm]]
      rw [ih processed seen hinv]
      simp [specSuffixEntries, hp]
    · have hpf : pairSeen lt processed i = false := by
        simpa using hp
      have hc : seen.contains (i.label lt, i.id) = false := by
        rw [← Bool.not_eq_true, hinv i]
        simpa using hp
      have hcm : (i.label lt, i.id) ∉ seen := by simpa using hc
      rw [show dedupLeavesGo lt seen (i :: xs)
            = i :: dedupLeavesGo lt ((i.label lt, i.id) :: seen) xs by
          simp [dedupLeavesGo, hcm]]
      have hinv2 : ∀ j : LeafInfo,
          ((i.label lt, i.id) :: seen).contains (j.label lt, j.id) = true ↔
            pairSeen lt (processed ++ [i]) j = true := by
        intro j
        rw [pairSeen_append]
        have hcons : ((i.label lt, i.id) :: seen).contains (j.label lt, j.id)
            = ((j.label lt, j.id) == (i.label lt, i.id)
                || seen.contains (j.label lt, j.id)) := rfl
        rw [hcons]
        simp only [Bool.or_eq_true, Bool.and_eq_true, beq_iff_eq,
          Prod.mk.injEq, hinv j]
        constructor
        · rintro (⟨h1, h2⟩ | h)
          · exact Or.inr ⟨h1.symm, h2.symm⟩
          · exact Or.inl h
        · rintro (h | ⟨h1, h2⟩)
          · exact Or.inr h
          · exact Or.inl ⟨h1.symm, h2.symm⟩
      simp only [specSuffixEntries, hpf, Bool.false_eq_true, if_false]
      rw [ih (processed ++ [i]) ((i.label lt, i.id) :: seen) hinv2]

/-- C9: for every finished tree the suffix mapping assigns, per label type,
the raw label (identity suffix stripped) to the first distinct leaf carrying
each raw label in depth-first order and the raw label plus suffix n to the
n-th distinct leaf carrying it (`"2"`,`"3"`,… for names, `"_2"`,`"_3"`,… for
fmt strings), counting a repeated `(label, id)` pair once; rendering the
cited examples: `PowerLaw() + PowerLaw()` displays as
`"PowerLaw + PowerLaw2"` (fmt `"PL + PL_2"`), and `PhAbs() * PowerLaw()` as
`"PhAbs * PowerLaw"`. -/
theorem c9_label_disambiguation :
    (∀ (lt : LabelType) (t : LNode),
      getSuffixMapping lt t = specSuffixEntries lt [] t.dfsLeaves) ∧
    labelSpaceName exSumPP = "PowerLaw + PowerLaw2" ∧
    labelSpaceName exProdPhP = "PhAbs * PowerLaw" ∧
    labelSpaceFmt exSumPP = "PL + PL_2" := by
  refine ⟨?_, rfl, rfl, rfl⟩
  intro lt t
  exact suffixFold_eq_spec lt t.dfsLeaves [] [] [] (fun l => rfl)

/-- C10: a leaf reused at several positions of one tree (same id) is counted
once by the suffix assignment — dropping the repeated occurrences leaves the
mapping unchanged — so suffixes advance per distinct leaf id sharing a raw
label, not per occurrence; in the shared example `(P + P) + Q` (with `P` one
shared `PowerLaw` leaf and `Q` a distinct `PowerLaw` leaf) the mapping has
exactly two entries, both `P` occurrences render as the identical bare
`"PowerLaw"`, and `Q` gets suffix `2`. -/
theorem c10_shared_leaf_counted_once :
    (∀ (lt : LabelType) (xs : List LeafInfo),
      suffixFold lt [] [] (dedupLeaves lt xs) = suffixFold lt [] [] xs) ∧
    getSuffixMapping .name exShared
      = [("PowerLaw_aa01", "PowerLaw"), ("PowerLaw_aa02", "PowerLaw2")] ∧
    labelSpaceName exShared = "PowerLaw + PowerLaw + PowerLaw2" := by
  refine ⟨?_, rfl, rfl⟩
  intro lt xs
  rw [suffixFold_eq_spec lt (dedupLeaves lt xs) [] [] [] (fun l => rfl),
    suffixFold_eq_spec lt xs [] [] [] (fun l => rfl)]
  simp only [List.nil_append]
  exact specSuffixEntries_dedup lt xs [] [] (fun j => by simp [pairSeen])
